import Mathlib

/-!
Verification of the nekto-clone matchmaking/chat backend.

Shallow embedding of the Python modules under `app/` and `api/`:
`app/config.py`, `app/core/security.py`, `app/core/matchmaking.py`,
`app/core/notification.py`, `api/routes/reports.py`, `api/routes/chat.py`,
`api/routes/auth.py`.  Python dictionaries keyed by user id are modelled as
functions or association lists, database tables as lists of rows, and the
random / time inputs of the code (salts, clocks) are made explicit arguments.
-/

namespace Nekto

/-! ## app/config.py -/

/-- `Settings.STUN_SERVER` default value (config.py line 59). -/
def STUN_SERVER : String := "stun:stun.l.google.com:19302"

/-- `Settings.TURN_SERVER` default value (config.py line 62).  The comment
directly above it in the source states the value must be a bare
`address:port` pair and must never carry a `turn:` scheme. -/
def TURN_SERVER : String := "turn:37.140.216.113:3478"

/-! ## app/core/notification.py

`NotificationManager.user_notifications` is a dict from user id to a list of
payloads; we model it as a total function with default `[]` (absent key and
empty list are indistinguishable to both operations: `append` after the
`if user_id not in` guard, and `pop(user_id, [])`). -/

/-- The mailbox state: user id to pending payload list. -/
def NotifState (α : Type) : Type := String → List α

/-- `NotificationManager.add_notification`: append to the user's list,
creating it if absent. -/
def add_notification {α : Type} (st : NotifState α) (user_id : String) (n : α) :
    NotifState α :=
  fun v => if v = user_id then st v ++ [n] else st v

/-- `NotificationManager.get_notifications`: `pop(user_id, [])` — return the
user's whole list and remove it from the mapping. -/
def get_notifications {α : Type} (st : NotifState α) (user_id : String) :
    List α × NotifState α :=
  (st user_id, fun v => if v = user_id then [] else st v)

/-! ## app/core/matchmaking.py — queue operations

The queue (Redis sorted set ordered by join timestamp, or the insertion
ordered in-memory dict fallback) is modelled as the list of queued user ids
in join order. -/

/-- `add_to_queue`: the user's entry is appended at the back of join order. -/
def add_to_queue (user_id : String) (queue : List String) : List String :=
  queue ++ [user_id]

/-- `remove_from_queue`: delete the (first) entry whose `user_id` matches. -/
def remove_from_queue (user_id : String) : List String → List String
  | [] => []
  | v :: rest => if v = user_id then rest else v :: remove_from_queue user_id rest

/-- The `enumerate` scan of `get_queue_position`, carrying the running index. -/
def queue_position_from (user_id : String) : List String → Int → Int
  | [], _ => -1
  | v :: rest, idx => if v = user_id then idx else queue_position_from user_id rest (idx + 1)

/-- `get_queue_position`: zero-based index of the user's entry in join order,
`-1` when the user is not queued. -/
def get_queue_position (user_id : String) (queue : List String) : Int :=
  queue_position_from user_id queue 0

theorem remove_from_queue_eq_erase (u : String) (q : List String) :
    remove_from_queue u q = q.erase u := by
  induction q with
  | nil => rfl
  | cons v rest ih =>
    simp only [remove_from_queue, List.erase_cons, ih]
    by_cases h : v = u
    · simp [h]
    · simp [h, beq_false_of_ne h]

theorem queue_position_from_not_mem (u : String) (q : List String) (i : Int)
    (h : u ∉ q) : queue_position_from u q i = -1 := by
  induction q generalizing i with
  | nil => rfl
  | cons v rest ih =>
    simp only [List.mem_cons, not_or] at h
    have hv : ¬ v = u := fun hv => h.1 hv.symm
    simp only [queue_position_from, if_neg hv]
    exact ih _ h.2

theorem queue_position_from_mem (u : String) (q : List String) (i : Int)
    (h : u ∈ q) : queue_position_from u q i = i + q.indexOf u := by
  induction q generalizing i with
  | nil => cases h
  | cons v rest ih =>
    by_cases hv : v = u
    · simp [queue_position_from, hv, List.indexOf_cons_self]
    · rcases List.mem_cons.mp h with h1 | h2
      · exact absurd h1.symm hv
      · have : (v == u) = false := beq_false_of_ne hv
        simp only [queue_position_from, if_neg hv, List.indexOf_cons, this,
          cond_false, ih _ h2]
        push_cast
        ring

/-- C7: `get_queue_position` returns the zero-based index of the user's entry
in current join order and exactly `-1` when the user is not queued; enqueuing
`u1, u2, u3` in that order yields positions `0, 1, 2`, and after removing
`u1` the position of `u2` is `0`. -/
theorem get_queue_position_spec :
    (∀ (u : String) (q : List String),
        (u ∉ q → get_queue_position u q = -1) ∧
        (u ∈ q → get_queue_position u q = q.indexOf u)) ∧
    (∀ u1 u2 u3 : String, u1 ≠ u2 → u1 ≠ u3 → u2 ≠ u3 →
        get_queue_position u1 (add_to_queue u3 (add_to_queue u2 (add_to_queue u1 []))) = 0 ∧
        get_queue_position u2 (add_to_queue u3 (add_to_queue u2 (add_to_queue u1 []))) = 1 ∧
        get_queue_position u3 (add_to_queue u3 (add_to_queue u2 (add_to_queue u1 []))) = 2 ∧
        get_queue_position u2
          (remove_from_queue u1 (add_to_queue u3 (add_to_queue u2 (add_to_queue u1 [])))) = 0) := by
  constructor
  · intro u q
    refine ⟨fun h => queue_position_from_not_mem u q 0 h, fun h => ?_⟩
    simpa using queue_position_from_mem u q 0 h
  · intro u1 u2 u3 h12 h13 h23
    simp only [add_to_queue, List.nil_append, List.cons_append,
      remove_from_queue, get_queue_position, queue_position_from]
    refine ⟨by simp, ?_, ?_, by simp⟩
    · simp [if_neg h12]
    · simp [if_neg h13, if_neg h23]

theorem get_queue_position_spec_witness :
    get_queue_position "a" ["x", "a"] = 1 ∧
    get_queue_position "b" ["x", "a"] = -1 ∧
    get_queue_position "u1" (add_to_queue "u3" (add_to_queue "u2" (add_to_queue "u1" []))) = 0 := by
  have h := get_queue_position_spec
  refine ⟨?_, ?_, ?_⟩
  · have := (h.1 "a" ["x", "a"]).2 (by decide)
    simpa using this
  · exact (h.1 "b" ["x", "a"]).1 (by decide)
  · exact (h.2 "u1" "u2" "u3" (by decide) (by decide) (by decide)).1

/-- C6: the notification mailbox is at-most-once: `add_notification` appends
to the user's list (creating it if absent, other users untouched), and
`get_notifications` returns the whole list while clearing it, so a second
immediate read returns `[]`. -/
theorem notification_mailbox_spec {α : Type} (st : NotifState α) (u : String) (n : α) :
    (add_notification st u n) u = st u ++ [n] ∧
    (∀ v, v ≠ u → (add_notification st u n) v = st v) ∧
    (get_notifications st u).1 = st u ∧
    (get_notifications (get_notifications st u).2 u).1 = [] ∧
    (∀ v, v ≠ u → (get_notifications st u).2 v = st v) := by
  refine ⟨?_, ?_, rfl, ?_, ?_⟩
  · simp [add_notification]
  · intro v hv
    simp [add_notification, hv]
  · simp [get_notifications]
  · intro v hv
    simp [get_notifications, hv]

theorem notification_mailbox_spec_witness :
    (add_notification (fun _ => ([] : List Nat)) "a" 7) "a" = [7] ∧
    (add_notification (fun _ => ([] : List Nat)) "a" 7) "b" = [] ∧
    (get_notifications (add_notification (fun _ => ([] : List Nat)) "a" 7) "a").1 = [7] ∧
    (get_notifications
      (get_notifications (add_notification (fun _ => ([] : List Nat)) "a" 7) "a").2 "a").1 = [] := by
  have h1 := notification_mailbox_spec (fun _ => ([] : List Nat)) "a" 7
  have h2 := notification_mailbox_spec (add_notification (fun _ => ([] : List Nat)) "a" 7) "a" (7 : Nat)
  exact ⟨h1.1, h1.2.1 "b" (by decide), h2.2.2.1, h2.2.2.2.1⟩

/-- C9: the shipped default of `Settings.TURN_SERVER` starts with the
`turn:` scheme, violating the address-only convention stated in the
comment right above it in `app/config.py`. -/
theorem turn_server_default_violates_convention :
    TURN_SERVER = "turn:37.140.216.113:3478" ∧
    TURN_SERVER.data.take 5 = "turn:".data := by
  exact ⟨rfl, by decide⟩

/-! ## app/core/security.py — JWT tokens

`python-jose` is modelled abstractly: an encoded token carries the claim set
it was built from and the secret it was signed with; `jwt.decode` succeeds
exactly when the verification secret matches the signing secret and the `exp`
claim lies in the future, and any other input (the empty string, garbage, a
tampered token) is the `none` case of the token argument.  Clocks are
explicit `Nat` timestamps. -/

/-- The claims of a token relevant to `verify_token`: `sub`, `type`
(field `typ` here) and `exp`.  Missing claims are `none`. -/
structure JwtPayload where
  sub : Option String
  typ : Option String
  exp : Nat
  deriving DecidableEq, Repr

/-- An encoded JWT: its payload plus the secret it was signed with. -/
structure Token where
  payload : JwtPayload
  secret : String
  deriving DecidableEq, Repr

/-- `jwt.decode(token, secret, ...)`: yields the payload when the signature
secret matches and the token is not expired, otherwise raises `JWTError`
(the `none` case). -/
def jwtDecode (t : Token) (secret : String) (now : Nat) : Option JwtPayload :=
  if t.secret = secret ∧ now < t.payload.exp then some t.payload else none

/-- The `data` argument of the token factories; the code demands a non-empty
dict containing `sub`. -/
structure TokenData where
  sub : Option String
  deriving DecidableEq, Repr

/-- `create_access_token`: requires `sub` in `data` (else `ValueError`),
stamps `exp` with the expiry instant and `type` with `"access"`. -/
def create_access_token (data : TokenData) (expire : Nat) (secret : String) :
    Except String Token :=
  match data.sub with
  | none => .error ("Token data must include sub (user_id)")
  | some s => .ok { payload := { sub := some s, typ := some "access", exp := expire }, secret }

/-- `create_refresh_token`: same as `create_access_token` but stamps `type`
with `"refresh"`. -/
def create_refresh_token (data : TokenData) (expire : Nat) (secret : String) :
    Except String Token :=
  match data.sub with
  | none => .error ("Token data must include sub (user_id)")
  | some s => .ok { payload := { sub := some s, typ := some "refresh", exp := expire }, secret }

/-- `verify_token(token, token_type)`: `none` for a falsy token, a decode
failure (signature / expiry), a `type` claim differing from the expected
type, or a missing/empty `sub`; otherwise the decoded payload.  The token
argument is `none` for any string `jwt.decode` cannot parse (the empty
string included). -/
def verify_token (token : Option Token) (secret : String) (now : Nat)
    (token_type : String) : Option JwtPayload :=
  match token with
  | none => none
  | some t =>
    match jwtDecode t secret now with
    | none => none
    | some payload =>
      if payload.typ ≠ some token_type then none
      else
        match payload.sub with
        | none => none
        | some user_id => if user_id = "" then none else some payload

/-- C1: `verify_token` is total with value `some payload` exactly when the
signature is valid, the token unexpired, the `type` claim equals the expected
type and `sub` is present and non-empty; every other input yields `none`.
Tokens minted by `create_refresh_token` never verify as `"access"`, and
tokens minted by `create_access_token` never verify as `"refresh"`. -/
theorem verify_token_total_spec :
    (∀ (token : Option Token) (secret : String) (now : Nat) (tt : String) (p : JwtPayload),
        verify_token token secret now tt = some p ↔
          ∃ t, token = some t ∧ p = t.payload ∧ t.secret = secret ∧
            now < t.payload.exp ∧ t.payload.typ = some tt ∧
            ∃ s, t.payload.sub = some s ∧ s ≠ "") ∧
    (∀ (data : TokenData) (expire : Nat) (secret : String) (t : Token),
        create_refresh_token data expire secret = .ok t →
        ∀ (now : Nat), verify_token (some t) secret now "access" = none) ∧
    (∀ (data : TokenData) (expire : Nat) (secret : String) (t : Token),
        create_access_token data expire secret = .ok t →
        ∀ (now : Nat), verify_token (some t) secret now "refresh" = none) := by
  refine ⟨?_, ?_, ?_⟩
  · intro token secret now tt p
    constructor
    · intro h
      match token with
      | none => simp [verify_token] at h
      | some t =>
        refine ⟨t, rfl, ?_⟩
        simp only [verify_token, jwtDecode] at h
        by_cases hd : t.secret = secret ∧ now < t.payload.exp
        · simp only [if_pos hd] at h
          by_cases hty : t.payload.typ ≠ some tt
          · simp [hty] at h
          · push_neg at hty
            simp only [ne_eq, hty, not_true_eq_false, if_neg, ite_false,
              not_false_eq_true, if_true] at h
            match hs : t.payload.sub with
            | none => rw [hs] at h; cases h
            | some s =>
              rw [hs] at h
              by_cases hse : s = ""
              · simp [hse] at h
              · simp only [if_neg hse, Option.some.injEq] at h
                exact ⟨h.symm, hd.1, hd.2, hty, s, rfl, hse⟩
        · simp [if_neg hd] at h
    · rintro ⟨t, rfl, rfl, hsec, hexp, hty, s, hsub, hse⟩
      simp [verify_token, jwtDecode, hsec, hexp, hty, hsub, hse]
  · intro data expire secret t h now
    match data with
    | ⟨none⟩ => cases h
    | ⟨some s⟩ =>
      simp only [create_refresh_token, Except.ok.injEq] at h
      subst h
      have hne : ("refresh" : String) ≠ "access" := by decide
      by_cases hn : now < expire <;> simp [verify_token, jwtDecode, hn, hne]
  · intro data expire secret t h now
    match data with
    | ⟨none⟩ => cases h
    | ⟨some s⟩ =>
      simp only [create_access_token, Except.ok.injEq] at h
      subst h
      have hne : ("access" : String) ≠ "refresh" := by decide
      by_cases hn : now < expire <;> simp [verify_token, jwtDecode, hn, hne]

theorem verify_token_total_spec_witness :
    verify_token (some ⟨⟨some "u1", some "access", 10⟩, "k"⟩) "k" 5 "access" =
      some ⟨some "u1", some "access", 10⟩ ∧
    verify_token (some ⟨⟨some "u1", some "refresh", 10⟩, "k"⟩) "k" 5 "access" = none ∧
    verify_token (some ⟨⟨some "u1", some "access", 10⟩, "k"⟩) "k" 5 "refresh" = none := by
  refine ⟨?_, ?_, ?_⟩
  · exact (verify_token_total_spec.1 (some ⟨⟨some "u1", some "access", 10⟩, "k"⟩)
      "k" 5 "access" ⟨some "u1", some "access", 10⟩).mpr
      ⟨⟨⟨some "u1", some "access", 10⟩, "k"⟩, rfl, rfl, rfl, by decide, rfl, "u1", rfl, by decide⟩
  · exact verify_token_total_spec.2.1 ⟨some "u1"⟩ 10 "k"
      ⟨⟨some "u1", some "refresh", 10⟩, "k"⟩ rfl 5
  · exact verify_token_total_spec.2.2 ⟨some "u1"⟩ 10 "k"
      ⟨⟨some "u1", some "access", 10⟩, "k"⟩ rfl 5

/-! ## api/routes/auth.py — registration display name

`register` builds the new user with
`display_name=user_data.display_name or user_data.username`; Python `or`
returns the right operand when the left is falsy (`None` or `""`). -/

/-- Python `a or b` on optional strings: `a` when truthy, else `b`. -/
def pyOrStr (a b : Option String) : Option String :=
  match a with
  | some s => if s = "" then b else some s
  | none => b

/-- The fields of `UserRegister` used for the display-name rule. -/
structure UserRegisterData where
  username : Option String
  display_name : Option String
  deriving DecidableEq, Repr

/-- The `display_name` stored on the `User` row built in `register`. -/
def register_display_name (d : UserRegisterData) : Option String :=
  pyOrStr d.display_name d.username

/-- C10: registration sets `display_name` to the supplied username when no
(or an empty) display name is given, keeps a non-empty display name as
given, and leaves it absent when neither field is supplied. -/
theorem register_display_name_spec (d : UserRegisterData) :
    ((d.display_name = none ∨ d.display_name = some "") →
        register_display_name d = d.username) ∧
    (∀ s, d.display_name = some s → s ≠ "" → register_display_name d = some s) ∧
    (d.display_name = none → d.username = none → register_display_name d = none) := by
  refine ⟨?_, ?_, ?_⟩
  · rintro (h | h) <;> simp [register_display_name, pyOrStr, h]
  · intro s hs hse
    simp [register_display_name, pyOrStr, hs, hse]
  · intro h1 h2
    simp [register_display_name, pyOrStr, h1, h2]

theorem register_display_name_spec_witness :
    register_display_name ⟨some "alice", none⟩ = some "alice" ∧
    register_display_name ⟨some "alice", some ""⟩ = some "alice" ∧
    register_display_name ⟨some "alice", some "Ally"⟩ = some "Ally" ∧
    register_display_name ⟨none, none⟩ = none := by
  refine ⟨?_, ?_, ?_, ?_⟩
  · exact (register_display_name_spec ⟨some "alice", none⟩).1 (Or.inl rfl)
  · exact (register_display_name_spec ⟨some "alice", some ""⟩).1 (Or.inr rfl)
  · exact (register_display_name_spec ⟨some "alice", some "Ally"⟩).2.1 "Ally" rfl (by decide)
  · exact (register_display_name_spec ⟨none, none⟩).2.2 rfl rfl

/-! ## app/core/security.py — password hashing

Passwords, salts and stored hashes are modelled as `List Char`; `hashlib`'s
SHA-256 hex digest is an abstract function argument `digest` (every theorem
holds for an arbitrary digest function).  `secrets.token_hex` produces a
lowercase-hex salt, captured by the predicate `isHexStr`.  Python's
`s.split('$', 2)` unpacked into three names succeeds exactly when the string
has at least two `'$'` separators; `secrets.compare_digest` is (constant
time) equality. -/

/-- One step of `split('$', _)`: the part before the first `'$'`, and the
remainder after it when one exists. -/
def breakAtDollar : List Char → List Char × Option (List Char)
  | [] => ([], none)
  | c :: rest =>
    if c = '$' then ([], some rest)
    else
      let r := breakAtDollar rest
      (c :: r.1, r.2)

/-- Python `s.split('$', 2)` unpacked into `algorithm, salt, stored_hash`:
`none` models the `ValueError` raised (and caught) when the string has fewer
than two `'$'` separators; further `'$'`s stay in the third component. -/
def splitDollar2 (s : List Char) : Option (List Char × List Char × List Char) :=
  match breakAtDollar s with
  | (_, none) => none
  | (a, some rest) =>
    match breakAtDollar rest with
    | (_, none) => none
    | (b, some rest2) => some (a, b, rest2)

/-- Hex digits, as produced by `secrets.token_hex`. -/
def isHexChar (c : Char) : Bool := "0123456789abcdef".data.contains c

/-- A string of hex digits, as produced by `secrets.token_hex`. -/
def isHexStr (s : List Char) : Prop := ∀ c ∈ s, isHexChar c = true

instance (s : List Char) : Decidable (isHexStr s) := by
  unfold isHexStr
  infer_instance

/-- `get_password_hash`: rejects the empty password with `ValueError`, else
returns `"sha256" + "$" + salt + "$" + sha256(salt + password).hexdigest()`.
The random salt drawn from `secrets.token_hex` is an explicit argument. -/
def get_password_hash (digest : List Char → List Char) (salt password : List Char) :
    Except String (List Char) :=
  if password = [] then .error ("Password cannot be empty")
  else .ok ("sha256".data ++ '$' :: salt ++ '$' :: digest (salt ++ password))

/-- `verify_password`: false on falsy inputs, on a stored value that does not
split into three `'$'`-separated fields, and on an algorithm tag other than
`"sha256"`; otherwise re-derives the digest with the stored salt and compares
it with the stored hash. -/
def verify_password (digest : List Char → List Char)
    (plain_password hashed_password : List Char) : Bool :=
  if plain_password = [] ∨ hashed_password = [] then false
  else
    match splitDollar2 hashed_password with
    | none => false
    | some (algorithm, salt, stored_hash) =>
      if algorithm ≠ "sha256".data then false
      else decide (digest (salt ++ plain_password) = stored_hash)

theorem breakAtDollar_no_dollar_append (a r : List Char) (h : '$' ∉ a) :
    breakAtDollar (a ++ '$' :: r) = (a, some r) := by
  induction a with
  | nil => simp [breakAtDollar]
  | cons c rest ih =>
    simp only [List.mem_cons, not_or] at h
    have hc : ¬ c = '$' := fun hc => h.1 hc.symm
    simp [breakAtDollar, hc, ih h.2]

theorem breakAtDollar_mem (l : List Char) (h : '$' ∈ l) :
    ∃ pre post, breakAtDollar l = (pre, some post) := by
  induction l with
  | nil => cases h
  | cons c rest ih =>
    by_cases hc : c = '$'
    · exact ⟨[], rest, by simp [breakAtDollar, hc]⟩
    · rcases List.mem_cons.mp h with h1 | h2
      · exact absurd h1.symm hc
      · obtain ⟨pre, post, hb⟩ := ih h2
        exact ⟨c :: pre, post, by simp [breakAtDollar, hc, hb]⟩

theorem splitDollar2_of_clean (a b r : List Char) (ha : '$' ∉ a) (hb : '$' ∉ b) :
    splitDollar2 (a ++ '$' :: b ++ '$' :: r) = some (a, b, r) := by
  simp [splitDollar2, breakAtDollar_no_dollar_append a (b ++ '$' :: r) ha,
    breakAtDollar_no_dollar_append b r hb]

theorem isHexStr_no_dollar (s : List Char) (h : isHexStr s) : '$' ∉ s := by
  intro hm
  have := h '$' hm
  simp [isHexChar] at this


theorem stored_format_ne_nil (a x : List Char) : a ++ '$' :: x ≠ [] := by
  intro h
  have := congrArg List.length h
  simp at this

/-- C2: for every non-empty password and hex salts, the stored value round
trips through `verify_password`; two different salts give two different
stored strings that both verify; a stored value with too few `'$'` fields or
a wrong algorithm tag verifies to `false`; and hashing the empty password
fails with `ValueError`.  All of this holds for an arbitrary digest
function. -/
theorem password_hash_roundtrip_spec
    (digest : List Char → List Char) (salt1 salt2 p : List Char)
    (hp : p ≠ []) (h1 : isHexStr salt1) (h2 : isHexStr salt2) :
    (∃ s1, get_password_hash digest salt1 p = .ok s1 ∧
        verify_password digest p s1 = true) ∧
    (salt1 ≠ salt2 →
      ∀ s1 s2, get_password_hash digest salt1 p = .ok s1 →
        get_password_hash digest salt2 p = .ok s2 →
        s1 ≠ s2 ∧ verify_password digest p s1 = true ∧
          verify_password digest p s2 = true) ∧
    (∀ stored, splitDollar2 stored = none →
        verify_password digest p stored = false) ∧
    (∀ algorithm salt h, '$' ∉ algorithm → algorithm ≠ "sha256".data →
        verify_password digest p (algorithm ++ '$' :: salt ++ '$' :: h) = false) ∧
    get_password_hash digest salt1 [] = .error ("Password cannot be empty") := by
  have sha_clean : '$' ∉ "sha256".data := by decide
  have roundtrip : ∀ salt : List Char, isHexStr salt →
      verify_password digest p
        ("sha256".data ++ '$' :: salt ++ '$' :: digest (salt ++ p)) = true := by
    intro salt hs
    have hno := isHexStr_no_dollar salt hs
    unfold verify_password
    rw [if_neg, splitDollar2_of_clean _ _ _ sha_clean hno]
    · simp
    · simp [hp, stored_format_ne_nil]
  refine ⟨?_, ?_, ?_, ?_, rfl⟩
  · exact ⟨_, by simp [get_password_hash, hp], roundtrip salt1 h1⟩
  · intro hne s1 s2 hs1 hs2
    simp only [get_password_hash, if_neg hp, Except.ok.injEq] at hs1 hs2
    subst hs1
    subst hs2
    refine ⟨?_, roundtrip salt1 h1, roundtrip salt2 h2⟩
    intro heq
    have e1 := splitDollar2_of_clean "sha256".data salt1 (digest (salt1 ++ p))
      sha_clean (isHexStr_no_dollar salt1 h1)
    have e2 := splitDollar2_of_clean "sha256".data salt2 (digest (salt2 ++ p))
      sha_clean (isHexStr_no_dollar salt2 h2)
    rw [heq, e2] at e1
    simp only [Option.some.injEq, Prod.mk.injEq] at e1
    exact hne e1.2.1.symm
  · intro stored hsplit
    unfold verify_password
    by_cases h0 : p = [] ∨ stored = []
    · simp [h0]
    · simp [h0, hsplit]
  · intro algorithm salt h halg hne
    have hmem : '$' ∈ salt ++ '$' :: h := by simp
    obtain ⟨b, c, hb⟩ := breakAtDollar_mem _ hmem
    have hsplit : splitDollar2 (algorithm ++ '$' :: salt ++ '$' :: h) =
        some (algorithm, b, c) := by
      have hassoc : algorithm ++ '$' :: salt ++ '$' :: h =
          algorithm ++ '$' :: (salt ++ '$' :: h) := by simp
      unfold splitDollar2
      rw [hassoc, breakAtDollar_no_dollar_append algorithm (salt ++ '$' :: h) halg]
      simp [hb]
    have hnn : ¬ (p = [] ∨ (algorithm ++ '$' :: salt ++ '$' :: h : List Char) = []) := by
      simp [hp, stored_format_ne_nil]
    unfold verify_password
    rw [if_neg hnn, hsplit]
    simp [hne]

theorem password_hash_roundtrip_spec_witness :
    ((("pw".data : List Char) ≠ []) ∧ isHexStr "ab".data ∧ isHexStr "cd".data) ∧
    (∃ s1, get_password_hash (fun l => l) "ab".data "pw".data = .ok s1 ∧
        verify_password (fun l => l) "pw".data s1 = true) ∧
    get_password_hash (fun l => l) "ab".data [] =
      .error ("Password cannot be empty") := by
  refine ⟨⟨by decide, by decide, by decide⟩, ?_, ?_⟩
  · exact (password_hash_roundtrip_spec (fun l => l) "ab".data "cd".data "pw".data
      (by decide) (by decide) (by decide)).1
  · exact (password_hash_roundtrip_spec (fun l => l) "ab".data "cd".data "pw".data
      (by decide) (by decide) (by decide)).2.2.2.2

/-! ## app/core/matchmaking.py — blocking, preferences, find_match

The `blocked_users` table is a list of `(blocker_user_id, blocked_user_id)`
rows, the `users` table a list of records with the fields read by
`check_preferences`.  Python truthiness drives two checks in the source:
`user.age and ...` (so `None` and `0` both skip the age bounds) and
`preferences["gender_preference"]` (so `""` skips the gender check); the
`preferences` argument of `find_match` is `none` for a falsy (absent or
empty) dict. -/

/-- A row of the `users` table, restricted to the columns `check_preferences`
reads. -/
structure UserRec where
  id : String
  age : Option Int
  gender : Option String
  deriving DecidableEq, Repr

/-- `select(User).where(User.id == user_id)` + `scalar_one_or_none()`. -/
def findUser (users : List UserRec) (user_id : String) : Option UserRec :=
  users.find? (fun u => u.id == user_id)

/-- The preference keys `check_preferences` reads; `none` is an absent key. -/
structure Prefs where
  gender_preference : Option String
  age_min : Option Int
  age_max : Option Int
  deriving DecidableEq, Repr

/-- `is_blocked`: a `BlockedUser` row exists in either direction. -/
def is_blocked (user_id_1 user_id_2 : String) (blocks : List (String × String)) : Bool :=
  blocks.any (fun r =>
    (r.1 == user_id_1 && r.2 == user_id_2) || (r.1 == user_id_2 && r.2 == user_id_1))

/-- `check_preferences`: false if the user row is absent; excluded when a
truthy gender preference differs from the user's gender, or when a truthy
(non-`None`, non-zero) age sits below `age_min` or above `age_max`. -/
def check_preferences (user_id : String) (preferences : Prefs)
    (users : List UserRec) : Bool :=
  match findUser users user_id with
  | none => false
  | some user =>
    let genderFail : Bool :=
      match preferences.gender_preference with
      | none => false
      | some g => (g != "") && (user.gender != some g)
    let ageMinFail : Bool :=
      match preferences.age_min, user.age with
      | some m, some a => (a != 0) && decide (a < m)
      | _, _ => false
    let ageMaxFail : Bool :=
      match preferences.age_max, user.age with
      | some m, some a => (a != 0) && decide (m < a)
      | _, _ => false
    !(genderFail || ageMinFail || ageMaxFail)

/-- The filter applied to each queue entry by the `find_match` scan: not the
requester, not blocked in either direction, and preference-matching when
preferences were supplied. -/
def accepts (user_id : String) (blocks : List (String × String))
    (users : List UserRec) (preferences : Option Prefs)
    (candidate_id : String) : Bool :=
  (candidate_id != user_id) && !(is_blocked user_id candidate_id blocks) &&
    (match preferences with
     | some prefs => check_preferences candidate_id prefs users
     | none => true)

/-- The `for member in members` loop of `find_match`, in join order. -/
def find_match_scan (user_id : String) (blocks : List (String × String))
    (users : List UserRec) (preferences : Option Prefs) :
    List String → Option String
  | [] => none
  | c :: rest =>
    if c = user_id then find_match_scan user_id blocks users preferences rest
    else if is_blocked user_id c blocks then
      find_match_scan user_id blocks users preferences rest
    else if (match preferences with
             | some prefs => !check_preferences c prefs users
             | none => false) then
      find_match_scan user_id blocks users preferences rest
    else some c

/-- `find_match`: scan the queue; on the first surviving candidate remove
both the requester and the candidate from the queue and return the
candidate's id with the new queue; otherwise leave the queue unchanged. -/
def find_match (user_id : String) (queue : List String)
    (blocks : List (String × String)) (users : List UserRec)
    (preferences : Option Prefs) : Option String × List String :=
  match find_match_scan user_id blocks users preferences queue with
  | none => (none, queue)
  | some c => (some c, remove_from_queue c (remove_from_queue user_id queue))

theorem find_match_scan_cons (user_id : String) (blocks : List (String × String))
    (users : List UserRec) (preferences : Option Prefs) (c : String)
    (rest : List String) :
    find_match_scan user_id blocks users preferences (c :: rest) =
      if accepts user_id blocks users preferences c = true then some c
      else find_match_scan user_id blocks users preferences rest := by
  by_cases h1 : c = user_id
  · simp [find_match_scan, accepts, h1]
  · by_cases h2 : is_blocked user_id c blocks
    · simp [find_match_scan, accepts, h1, h2]
    · match preferences with
      | none =>
        simp [find_match_scan, accepts, h1, h2, bne_iff_ne,
          Bool.not_eq_true _ ▸ h2]
      | some prefs =>
        by_cases h3 : check_preferences c prefs users
        · simp [find_match_scan, accepts, h1, h2, h3]
        · simp [find_match_scan, accepts, h1, h2,
            Bool.not_eq_true _ ▸ h3]

theorem find_match_scan_first (user_id : String) (blocks : List (String × String))
    (users : List UserRec) (preferences : Option Prefs) (queue : List String)
    (c : String)
    (h : find_match_scan user_id blocks users preferences queue = some c) :
    accepts user_id blocks users preferences c = true ∧
    ∃ l1 l2, queue = l1 ++ c :: l2 ∧
      ∀ x ∈ l1, accepts user_id blocks users preferences x = false := by
  induction queue with
  | nil => cases h
  | cons v rest ih =>
    rw [find_match_scan_cons] at h
    by_cases ha : accepts user_id blocks users preferences v = true
    · rw [if_pos ha] at h
      cases h
      exact ⟨ha, [], rest, rfl, by simp⟩
    · rw [if_neg ha] at h
      obtain ⟨hacc, l1, l2, heq, hall⟩ := ih h
      refine ⟨hacc, v :: l1, l2, by simp [heq], ?_⟩
      intro x hx
      rcases List.mem_cons.mp hx with h1 | h2
      · subst h1
        exact Bool.not_eq_true _ ▸ ha
      · exact hall x h2

theorem is_blocked_of_mem (a b : String) (blocks : List (String × String))
    (h : (a, b) ∈ blocks ∨ (b, a) ∈ blocks) : is_blocked a b blocks = true := by
  rcases h with h | h <;>
    · simp only [is_blocked, List.any_eq_true]
      exact ⟨_, h, by simp⟩

/-- C3: `find_match` never returns a user blocked in either direction
relative to the requester; when it returns a candidate, that candidate is
the first entry in join order passing the self / block / preference filters,
and both the requester and the candidate are removed from the queue returned
alongside the candidate id. -/
theorem find_match_spec :
    (∀ (user_id b : String) (queue : List String)
        (blocks : List (String × String)) (users : List UserRec)
        (preferences : Option Prefs),
        ((user_id, b) ∈ blocks ∨ (b, user_id) ∈ blocks) →
        ∀ c q', find_match user_id queue blocks users preferences = (some c, q') →
          c ≠ b) ∧
    (∀ (user_id : String) (queue : List String)
        (blocks : List (String × String)) (users : List UserRec)
        (preferences : Option Prefs) (c : String) (q' : List String),
        find_match user_id queue blocks users preferences = (some c, q') →
        c ≠ user_id ∧ is_blocked user_id c blocks = false ∧
        (∀ prefs, preferences = some prefs → check_preferences c prefs users = true) ∧
        (∃ l1 l2, queue = l1 ++ c :: l2 ∧
            ∀ x ∈ l1, accepts user_id blocks users preferences x = false) ∧
        q' = remove_from_queue c (remove_from_queue user_id queue) ∧
        (queue.Nodup → user_id ∉ q' ∧ c ∉ q')) := by
  have main : ∀ (user_id : String) (queue : List String)
      (blocks : List (String × String)) (users : List UserRec)
      (preferences : Option Prefs) (c : String) (q' : List String),
      find_match user_id queue blocks users preferences = (some c, q') →
      c ≠ user_id ∧ is_blocked user_id c blocks = false ∧
      (∀ prefs, preferences = some prefs → check_preferences c prefs users = true) ∧
      (∃ l1 l2, queue = l1 ++ c :: l2 ∧
          ∀ x ∈ l1, accepts user_id blocks users preferences x = false) ∧
      q' = remove_from_queue c (remove_from_queue user_id queue) ∧
      (queue.Nodup → user_id ∉ q' ∧ c ∉ q') := by
    intro user_id queue blocks users preferences c q' h
    unfold find_match at h
    match hscan : find_match_scan user_id blocks users preferences queue with
    | none => rw [hscan] at h; cases h
    | some c0 =>
      rw [hscan] at h
      injection h with h1 h2
      injection h1 with h1
      subst h1
      obtain ⟨hacc, hfirst⟩ :=
        find_match_scan_first user_id blocks users preferences queue c0 hscan
      simp only [accepts, Bool.and_eq_true, bne_iff_ne, ne_eq,
        Bool.not_eq_true'] at hacc
      refine ⟨hacc.1.1, hacc.1.2, ?_, hfirst, h2.symm, ?_⟩
      · intro prefs hp
        rw [hp] at hacc
        exact hacc.2
      · intro hnd
        subst h2
        rw [remove_from_queue_eq_erase, remove_from_queue_eq_erase]
        have hnd2 : (queue.erase user_id).Nodup := hnd.erase user_id
        constructor
        · intro hmem
          have := ((hnd2.mem_erase_iff).mp hmem).2
          exact ((hnd.mem_erase_iff).mp this).1 rfl
        · intro hmem
          exact ((hnd2.mem_erase_iff).mp hmem).1 rfl
  refine ⟨?_, main⟩
  intro user_id b queue blocks users preferences hb c q' h
  obtain ⟨_, hnotb, _⟩ := main user_id queue blocks users preferences c q' h
  intro hcb
  rw [hcb] at hnotb
  rw [is_blocked_of_mem user_id b blocks hb] at hnotb
  cases hnotb

theorem find_match_spec_witness :
    find_match "A" ["B", "C"] [("A", "B")] [] none = (some "C", ["B"]) ∧
    (("A", "B") ∈ [("A", "B")] ∨ (("B", "A") : String × String) ∈ [("A", "B")]) ∧
    ("C" : String) ≠ "B" := by
  refine ⟨by decide, Or.inl (by decide), ?_⟩
  exact find_match_spec.1 "A" "B" ["B", "C"] [("A", "B")] [] none
    (Or.inl (by decide)) "C" ["B"] (by decide)

/-- C8 counterexample: the claim says a candidate whose age is present and
below `age_min` is always excluded, but a candidate with `age = 0` on file is
Python-falsy in `user.age and user.age < preferences["age_min"]`, so
`check_preferences` accepts them despite `0 < 18`. -/
theorem check_preferences_age_zero_not_excluded :
    (⟨"u", some 0, none⟩ : UserRec).age = some 0 ∧ ((0 : Int) < 18) ∧
    check_preferences "u" ⟨none, some 18, none⟩ [⟨"u", some 0, none⟩] = true := by
  refine ⟨rfl, by decide, by decide⟩

/-- C8 (amended): a candidate with no age on file is never excluded by an age
bound (the result is the same as with the age bounds dropped); a candidate
whose age is present and non-zero and below `age_min` (or above `age_max`) is
excluded; a truthy gender preference differing from the candidate's gender
excludes; a missing user record always fails the match.  (Age `0`, being
Python-falsy, is treated like an absent age.) -/
theorem check_preferences_spec
    (users : List UserRec) (preferences : Prefs) (user_id : String) :
    (∀ u, findUser users user_id = some u → u.age = none →
        check_preferences user_id preferences users =
          check_preferences user_id ⟨preferences.gender_preference, none, none⟩ users) ∧
    (∀ u a m, findUser users user_id = some u → u.age = some a → a ≠ 0 →
        preferences.age_min = some m → a < m →
        check_preferences user_id preferences users = false) ∧
    (∀ u a m, findUser users user_id = some u → u.age = some a → a ≠ 0 →
        preferences.age_max = some m → m < a →
        check_preferences user_id preferences users = false) ∧
    (∀ u g, findUser users user_id = some u → preferences.gender_preference = some g →
        g ≠ "" → u.gender ≠ some g →
        check_preferences user_id preferences users = false) ∧
    (findUser users user_id = none → check_preferences user_id preferences users = false) := by
  refine ⟨?_, ?_, ?_, ?_, ?_⟩
  · intro u hfind hage
    simp [check_preferences, hfind, hage]
  · intro u a m hfind hage ha hmin hlt
    have hane : (a != 0) = true := bne_iff_ne.mpr ha
    simp [check_preferences, hfind, hage, hmin, hane, hlt]
  · intro u a m hfind hage ha hmax hlt
    have hane : (a != 0) = true := bne_iff_ne.mpr ha
    simp [check_preferences, hfind, hage, hmax, hane, hlt]
  · intro u g hfind hgp hge hgne
    have h1 : (g != "") = true := bne_iff_ne.mpr hge
    have h2 : (u.gender != some g) = true := bne_iff_ne.mpr hgne
    simp [check_preferences, hfind, hgp, h1, h2]
  · intro hfind
    simp [check_preferences, hfind]

theorem check_preferences_spec_witness :
    check_preferences "u" ⟨none, some 18, some 99⟩ [⟨"u", none, none⟩] =
      check_preferences "u" ⟨none, none, none⟩ [⟨"u", none, none⟩] ∧
    check_preferences "v" ⟨none, some 18, none⟩ [⟨"v", some 17, none⟩] = false ∧
    check_preferences "w" ⟨some "male", none, none⟩ [⟨"w", none, some "female"⟩] = false ∧
    check_preferences "z" ⟨none, none, none⟩ [] = false := by
  refine ⟨?_, ?_, ?_, ?_⟩
  · exact (check_preferences_spec [⟨"u", none, none⟩] ⟨none, some 18, some 99⟩ "u").1
      ⟨"u", none, none⟩ (by decide) rfl
  · exact (check_preferences_spec [⟨"v", some 17, none⟩] ⟨none, some 18, none⟩ "v").2.1
      ⟨"v", some 17, none⟩ 17 18 (by decide) rfl (by decide) rfl (by decide)
  · exact (check_preferences_spec [⟨"w", none, some "female"⟩] ⟨some "male", none, none⟩ "w").2.2.2.1
      ⟨"w", none, some "female"⟩ "male" (by decide) rfl (by decide) (by decide)
  · exact (check_preferences_spec [] ⟨none, none, none⟩ "z").2.2.2.2 rfl

/-! ## api/routes/chat.py — WebSocket join rule

A `ChatSession`'s two participant slots; the endpoint logic after token,
user and session lookup succeed: `is_participant` / `can_join` and either
the lazy fill of `user_id_2`, acceptance, or close code 1008.  `not
chat_session.user_id_2` is Python truthiness, so both a missing and an empty
second slot count as empty. -/

/-- The two participant slots of a `ChatSession` row. -/
structure Session where
  user_id_1 : String
  user_id_2 : Option String
  deriving DecidableEq, Repr

/-- Python `not` on an optional string column. -/
def pyFalsyStr : Option String → Bool
  | none => true
  | some s => s == ""

/-- Result of a connection attempt: accepted, or closed with a code; either
way the (possibly updated) session row. -/
inductive WsOutcome where
  | accepted (session : Session)
  | rejected (code : Nat) (session : Session)
  deriving DecidableEq, Repr

/-- The participant check of `websocket_endpoint` (chat.py lines 124-139):
reject with 1008 when the caller is neither participant and the second slot
is filled; fill the empty second slot when the caller is not `user_id_1`;
otherwise accept as existing participant. -/
def ws_join (s : Session) (user_id : String) : WsOutcome :=
  let isParticipant : Bool := (s.user_id_1 == user_id) || (s.user_id_2 == some user_id)
  let canJoin : Bool := pyFalsyStr s.user_id_2 && (s.user_id_1 != user_id)
  if !isParticipant && !canJoin then .rejected 1008 s
  else if canJoin then .accepted { s with user_id_2 := some user_id }
  else .accepted s

/-- The session row after a connection attempt. -/
def sessionAfter : WsOutcome → Session
  | .accepted s => s
  | .rejected _ s => s

/-- A sequence of connection attempts against one session. -/
def ws_run (s : Session) : List String → Session
  | [] => s
  | u :: rest => ws_run (sessionAfter (ws_join s u)) rest

theorem ws_join_user_id_1 (s : Session) (u : String) :
    (sessionAfter (ws_join s u)).user_id_1 = s.user_id_1 := by
  unfold ws_join
  dsimp only
  split
  · rfl
  · split
    · rfl
    · rfl

theorem ws_join_user_id_2_stable (s : Session) (u v : String)
    (hv : s.user_id_2 = some v) (hne : v ≠ "") :
    (sessionAfter (ws_join s u)).user_id_2 = some v := by
  unfold ws_join
  dsimp only
  split
  · exact hv
  · split
    · next hc =>
      rw [hv] at hc
      simp [pyFalsyStr, hne] at hc
    · exact hv

theorem ws_join_no_fill (s : Session) (u : String)
    (h : (pyFalsyStr s.user_id_2 && (s.user_id_1 != u)) = false) :
    sessionAfter (ws_join s u) = s := by
  unfold ws_join
  dsimp only
  split
  · rfl
  · split
    · next hc =>
      rw [h] at hc
      cases hc
    · rfl

theorem ws_run_stable (s : Session) (l : List String) (v : String)
    (hv : s.user_id_2 = some v) (hne : v ≠ "") :
    (ws_run s l).user_id_1 = s.user_id_1 ∧ (ws_run s l).user_id_2 = some v := by
  induction l generalizing s with
  | nil => exact ⟨rfl, hv⟩
  | cons u rest ih =>
    have h2 := ws_join_user_id_2_stable s u v hv hne
    have h1 := ws_join_user_id_1 s u
    obtain ⟨ih1, ih2⟩ := ih (sessionAfter (ws_join s u)) h2
    exact ⟨by rw [ws_run, ih1, h1], by rw [ws_run, ih2]⟩

theorem ws_run_two_users (s : Session) (l : List String)
    (hids : ∀ u ∈ l, u ≠ "") (h2 : s.user_id_2 = none) :
    ∃ w, ∀ t1 t2, l = t1 ++ t2 →
      (ws_run s t1).user_id_1 = s.user_id_1 ∧
      ((ws_run s t1).user_id_2 = none ∨ (ws_run s t1).user_id_2 = some w) := by
  induction l generalizing s with
  | nil =>
    refine ⟨s.user_id_1, ?_⟩
    intro t1 t2 ht
    have h1 : t1 = [] := by
      cases t1 with
      | nil => rfl
      | cons a t => cases ht
    subst h1
    exact ⟨rfl, Or.inl h2⟩
  | cons u rest ih =>
    have hu : u ≠ "" := hids u (List.mem_cons_self u rest)
    have hrest : ∀ x ∈ rest, x ≠ "" := fun x hx => hids x (List.mem_cons_of_mem u hx)
    by_cases hcase : s.user_id_1 = u
    · have hcj : (pyFalsyStr s.user_id_2 && (s.user_id_1 != u)) = false := by
        simp [hcase]
      have hnf := ws_join_no_fill s u hcj
      obtain ⟨w, hw⟩ := ih s hrest h2
      refine ⟨w, ?_⟩
      intro t1 t2 ht
      cases t1 with
      | nil => exact ⟨rfl, Or.inl h2⟩
      | cons a t1' =>
        injection ht with ha ht'
        subst ha
        have : ws_run s (u :: t1') = ws_run s t1' := by
          rw [ws_run, hnf]
        rw [this]
        exact hw t1' t2 ht'
    · have hfill : sessionAfter (ws_join s u) = { s with user_id_2 := some u } := by
        have hcj : (pyFalsyStr s.user_id_2 && (s.user_id_1 != u)) = true := by
          simp [pyFalsyStr, h2, bne_iff_ne, hcase]
        unfold ws_join
        dsimp only
        rw [hcj]
        simp [sessionAfter]
      refine ⟨u, ?_⟩
      intro t1 t2 ht
      cases t1 with
      | nil => exact ⟨rfl, Or.inl h2⟩
      | cons a t1' =>
        injection ht with ha ht'
        subst ha
        have hs' : ws_run s (u :: t1') = ws_run { s with user_id_2 := some u } t1' := by
          rw [ws_run, hfill]
        obtain ⟨r1, r2⟩ := ws_run_stable { s with user_id_2 := some u } t1' u rfl hu
        rw [hs']
        exact ⟨r1, Or.inr r2⟩

/-- C4: at most two distinct users ever occupy a session's participant
slots: a lazy fill only happens into an empty second slot, a connection from
a third user when both slots are filled is rejected with close code 1008,
and over every sequence of connection attempts the first slot never changes
while the second slot goes from empty to at most one fixed user. -/
theorem websocket_two_user_spec :
    (∀ (s : Session) (u : String), s.user_id_2 = none → s.user_id_1 ≠ u →
        ws_join s u = .accepted { s with user_id_2 := some u }) ∧
    (∀ (s : Session) (u v : String), s.user_id_2 = some v → v ≠ "" →
        u ≠ s.user_id_1 → u ≠ v → ws_join s u = .rejected 1008 s) ∧
    (∀ (s : Session) (l : List String), (∀ u ∈ l, u ≠ "") → s.user_id_2 = none →
        ∃ w, ∀ t1 t2, l = t1 ++ t2 →
          (ws_run s t1).user_id_1 = s.user_id_1 ∧
          ((ws_run s t1).user_id_2 = none ∨ (ws_run s t1).user_id_2 = some w)) := by
  refine ⟨?_, ?_, ws_run_two_users⟩
  · intro s u h2 hne
    have hcj : (pyFalsyStr s.user_id_2 && (s.user_id_1 != u)) = true := by
      simp [pyFalsyStr, h2, bne_iff_ne, hne]
    unfold ws_join
    dsimp only
    rw [hcj]
    simp
  · intro s u v hv hvne h1 h2
    have e1 : (s.user_id_1 == u) = false := beq_false_of_ne (Ne.symm h1)
    have e2 : (s.user_id_2 == some u) = false := by
      rw [hv]
      exact beq_false_of_ne (fun h => h2 (Option.some.inj h).symm)
    have e3 : pyFalsyStr s.user_id_2 = false := by
      simp [pyFalsyStr, hv, hvne]
    unfold ws_join
    dsimp only
    rw [e1, e2, e3]
    simp

theorem websocket_two_user_spec_witness :
    ws_join ⟨"A", none⟩ "B" = .accepted ⟨"A", some "B"⟩ ∧
    ws_join ⟨"A", some "B"⟩ "C" = .rejected 1008 ⟨"A", some "B"⟩ ∧
    ∃ w, ∀ t1 t2, ["B", "C"] = t1 ++ t2 →
      (ws_run ⟨"A", none⟩ t1).user_id_1 = "A" ∧
      ((ws_run ⟨"A", none⟩ t1).user_id_2 = none ∨
        (ws_run ⟨"A", none⟩ t1).user_id_2 = some w) := by
  refine ⟨?_, ?_, ?_⟩
  · exact websocket_two_user_spec.1 ⟨"A", none⟩ "B" rfl (by decide)
  · exact websocket_two_user_spec.2.1 ⟨"A", some "B"⟩ "C" "B" rfl (by decide)
      (by decide) (by decide)
  · exact websocket_two_user_spec.2.2 ⟨"A", none⟩ ["B", "C"] (by decide) rfl

/-! ## api/routes/reports.py — create_report

The report flow after authentication: self-report and unknown-target guards,
the `Report` row with status `"pending"`, and the automatic block — a
`BlockedUser(reporter → reported)` row plus a `blocked_users_count`
increment, both only when no such row exists yet.  `chat_session_id` is left
at its `None` default (its validation branch is then skipped), and the
`users` table is the list of existing user ids. -/

/-- A `Report` row, restricted to the columns `create_report` writes. -/
structure ReportRow where
  reporter_id : String
  reported_user_id : String
  reason : String
  status : String
  deriving DecidableEq, Repr

/-- The authenticated reporter: id plus `blocked_users_count`. -/
structure Reporter where
  id : String
  blocked_users_count : Nat
  deriving DecidableEq, Repr

/-- `create_report`: HTTP error codes for self-report (400) and a missing
reported user (404); otherwise the updated reporter, `blocked_users` table
and `reports` table after the commit. -/
def create_report (current_user : Reporter) (reported_user_id reason : String)
    (users : List String) (blocks : List (String × String))
    (reports : List ReportRow) :
    Except Nat (Reporter × List (String × String) × List ReportRow) :=
  if reported_user_id = current_user.id then .error 400
  else if !(users.contains reported_user_id) then .error 404
  else
    let report : ReportRow :=
      ⟨current_user.id, reported_user_id, reason, "pending"⟩
    if blocks.any (fun r => r.1 == current_user.id && r.2 == reported_user_id) then
      .ok (current_user, blocks, reports ++ [report])
    else
      .ok ({ current_user with
              blocked_users_count := current_user.blocked_users_count + 1 },
        blocks ++ [(current_user.id, reported_user_id)], reports ++ [report])

theorem any_pair_eq_mem (x y : String) (blocks : List (String × String)) :
    blocks.any (fun r => r.1 == x && r.2 == y) = true ↔ (x, y) ∈ blocks := by
  simp only [List.any_eq_true, Bool.and_eq_true, beq_iff_eq]
  constructor
  · rintro ⟨r, hr, h1, h2⟩
    have : r = (x, y) := by
      cases r
      simp_all
    rw [← this]
    exact hr
  · intro h
    exact ⟨(x, y), h, rfl, rfl⟩

/-- C5: a first report from A against B (no prior block) persists exactly one
`BlockedUser(A → B)` row, increments A's `blocked_users_count` by exactly 1
and appends a `"pending"` report; a second report from A against B adds no
block row, leaves the counter unchanged, and still appends a new `"pending"`
report. -/
theorem create_report_spec (u : Reporter) (b reason1 reason2 : String)
    (users : List String) (blocks : List (String × String))
    (reports : List ReportRow) (hne : b ≠ u.id)
    (hex : users.contains b = true) (hnob : (u.id, b) ∉ blocks) :
    ∃ u1 blocks1 reports1,
      create_report u b reason1 users blocks reports = .ok (u1, blocks1, reports1) ∧
      blocks1.count (u.id, b) = 1 ∧
      blocks1 = blocks ++ [(u.id, b)] ∧
      u1.blocked_users_count = u.blocked_users_count + 1 ∧
      u1.id = u.id ∧
      reports1 = reports ++ [⟨u.id, b, reason1, "pending"⟩] ∧
      ∃ u2 blocks2 reports2,
        create_report u1 b reason2 users blocks1 reports1 =
          .ok (u2, blocks2, reports2) ∧
        blocks2 = blocks1 ∧
        u2.blocked_users_count = u1.blocked_users_count ∧
        reports2 = reports1 ++ [⟨u.id, b, reason2, "pending"⟩] := by
  have hany : blocks.any (fun r => r.1 == u.id && r.2 == b) = false := by
    rw [← Bool.not_eq_true]
    intro h
    exact hnob ((any_pair_eq_mem u.id b blocks).mp h)
  have hexm : b ∈ users := by simpa using hex
  refine ⟨{ u with blocked_users_count := u.blocked_users_count + 1 },
    blocks ++ [(u.id, b)], reports ++ [⟨u.id, b, reason1, "pending"⟩],
    ?_, ?_, rfl, rfl, rfl, rfl, ?_⟩
  · simp [create_report, hne, hexm, hany]
  · rw [List.count_append, List.count_eq_zero.mpr hnob]
    simp
  · have hmem : (u.id, b) ∈ blocks ++ [(u.id, b)] := by simp
    have hany2 : (blocks ++ [(u.id, b)]).any
        (fun r => r.1 == u.id && r.2 == b) = true :=
      (any_pair_eq_mem u.id b _).mpr hmem
    refine ⟨_, _, _, ?_, rfl, rfl, rfl⟩
    simp [create_report, hne, hexm, hany2]

theorem create_report_spec_witness :
    ∃ u1 blocks1 reports1,
      create_report ⟨"A", 0⟩ "B" "spam" ["A", "B"] [] [] =
        .ok (u1, blocks1, reports1) ∧
      blocks1.count ("A", "B") = 1 ∧
      blocks1 = [] ++ [("A", "B")] ∧
      u1.blocked_users_count = 0 + 1 ∧
      u1.id = "A" ∧
      reports1 = [] ++ [⟨"A", "B", "spam", "pending"⟩] ∧
      ∃ u2 blocks2 reports2,
        create_report u1 "B" "other" ["A", "B"] blocks1 reports1 =
          .ok (u2, blocks2, reports2) ∧
        blocks2 = blocks1 ∧
        u2.blocked_users_count = u1.blocked_users_count ∧
        reports2 = reports1 ++ [⟨"A", "B", "other", "pending"⟩] :=
  create_report_spec ⟨"A", 0⟩ "B" "spam" "other" ["A", "B"] [] []
    (by decide) (by decide) (by decide)
